import Mathlib

/-!
Shallow embedding of the go-oanda-streaming-api client package
(`src/client/client.go` and `src/unnamed/part_000`, the variant of the
same package that adds the Transaction feed).

Conventions of the embedding:
* Go `float64` values (prices, liquidity) are modelled as `ℚ`; the
  prices on the wire are short decimal strings whose parsed values and
  comparisons are exact.
* Go `(value, error)` pairs are modelled as `value × Option String`,
  with `none` standing for a nil error.
* `time.Time` is modelled as `GoTime` (seconds since the Unix epoch
  plus a nanosecond component), with Go's zero time instant
  0001-01-01T00:00:00 UTC as the distinguished zero value.
* `strconv.ParseFloat` and `time.Parse time.RFC3339Nano` are modelled
  by executable parsers for the decimal-literal / RFC 3339 forms the
  feed carries.
* The streaming loops are modelled as functions over a finite list of
  read events; `json.Unmarshal` into the reused decode target is
  modelled by field-wise merge: a field absent from the line keeps the
  value it had in the target (Go leaves untouched fields unchanged).
-/

/-- Model of Go `time.Time`: seconds since the Unix epoch and the
sub-second nanosecond component. -/
structure GoTime where
  sec : Int
  nsec : Nat
  deriving DecidableEq, Repr

/-- Unix seconds of Go's zero time instant 0001-01-01T00:00:00 UTC. -/
def goZeroSec : Int := -62135596800

/-- Go's zero `time.Time`. -/
def zeroGoTime : GoTime := ⟨goZeroSec, 0⟩

/-- Model of `time.Time.IsZero`: the instant is January 1, year 1, 00:00:00 UTC. -/
def GoTime.isZero (t : GoTime) : Bool :=
  t.sec == goZeroSec && t.nsec == 0

/-- Model of `time.Time.Unix`. -/
def GoTime.unix (t : GoTime) : Int := t.sec

/-- Model of `time.Time.Nanosecond`. -/
def GoTime.nanosecond (t : GoTime) : Int := Int.ofNat t.nsec

/-- Numeric value of a decimal digit character. -/
def digitToNat (c : Char) : Nat := c.toNat - 48

/-- Read exactly `n` decimal digits from the front of the character list,
accumulating their value. -/
def readFixedNat : Nat → Nat → List Char → Option (Nat × List Char)
  | 0, acc, cs => some (acc, cs)
  | n + 1, acc, c :: cs =>
      if c.isDigit then readFixedNat n (acc * 10 + digitToNat c) cs else none
  | _ + 1, _, [] => none

/-- Consume one expected character. -/
def expectChar (c : Char) : List Char → Option (List Char)
  | x :: cs => if x = c then some cs else none
  | [] => none

/-- Take the maximal run of decimal digits from the front of the list. -/
def takeDigits : List Char → List Nat × List Char
  | c :: cs =>
      if c.isDigit then
        let p := takeDigits cs
        (digitToNat c :: p.1, p.2)
      else ([], c :: cs)
  | [] => ([], [])

/-- Nanoseconds denoted by a fractional-second digit string: the first
nine digits, right-padded with zeros (Go truncates extra precision). -/
def fracNanos (ds : List Nat) : Nat :=
  ((ds.take 9).foldl (fun a d => a * 10 + d) 0) * 10 ^ (9 - min ds.length 9)

/-- Gregorian leap-year rule. -/
def isLeapYear (y : Nat) : Bool :=
  (y % 4 == 0 && y % 100 != 0) || y % 400 == 0

/-- Number of days in a month. -/
def daysInMonth (y m : Nat) : Nat :=
  if m == 2 then (if isLeapYear y then 29 else 28)
  else if m == 4 || m == 6 || m == 9 || m == 11 then 30
  else 31

/-- Days from the civil date `y-m-d` to the Unix epoch 1970-01-01
(proleptic Gregorian calendar, floor divisions). -/
def daysFromCivil (y m d : Int) : Int :=
  let y2 := if m ≤ 2 then y - 1 else y
  let era := Int.fdiv y2 400
  let yoe := y2 - era * 400
  let mp := Int.fmod (m + 9) 12
  let doy := Int.fdiv (153 * mp + 2) 5 + d - 1
  let doe := yoe * 365 + Int.fdiv yoe 4 - Int.fdiv yoe 100 + doy
  era * 146097 + doe - 719468

/-- Parse the `YYYY-MM-DDTHH:MM:SS` prefix of an RFC 3339 timestamp. -/
def parseYMDHMS (cs0 : List Char) :
    Option (Nat × Nat × Nat × Nat × Nat × Nat × List Char) := do
  let cs := cs0
  let (y, cs) ← readFixedNat 4 0 cs
  let cs ← expectChar '-' cs
  let (mo, cs) ← readFixedNat 2 0 cs
  let cs ← expectChar '-' cs
  let (d, cs) ← readFixedNat 2 0 cs
  let cs ← expectChar 'T' cs
  let (h, cs) ← readFixedNat 2 0 cs
  let cs ← expectChar ':' cs
  let (mi, cs) ← readFixedNat 2 0 cs
  let cs ← expectChar ':' cs
  let (se, cs) ← readFixedNat 2 0 cs
  some (y, mo, d, h, mi, se, cs)

/-- Parse an optional fractional-second field. -/
def parseFrac : List Char → Option (Nat × List Char)
  | '.' :: cs2 =>
      let p := takeDigits cs2
      if p.1.isEmpty then none else some (fracNanos p.1, p.2)
  | cs => some (0, cs)

/-- Parse the zone designator: `Z` or `±HH:MM`, yielding the offset in
seconds east of UTC. -/
def parseOffset : List Char → Option (Int × List Char)
  | 'Z' :: cs2 => some ((0 : Int), cs2)
  | '+' :: cs2 => do
      let (oh, cs3) ← readFixedNat 2 0 cs2
      let cs4 ← expectChar ':' cs3
      let (om, cs5) ← readFixedNat 2 0 cs4
      if oh ≤ 23 && om ≤ 59 then some ((Int.ofNat (oh * 3600 + om * 60)), cs5) else none
  | '-' :: cs2 => do
      let (oh, cs3) ← readFixedNat 2 0 cs2
      let cs4 ← expectChar ':' cs3
      let (om, cs5) ← readFixedNat 2 0 cs4
      if oh ≤ 23 && om ≤ 59 then some (-(Int.ofNat (oh * 3600 + om * 60)), cs5) else none
  | _ => none

/-- Model of `time.Parse(time.RFC3339Nano, s)` (also the format accepted
by `time.Time.UnmarshalJSON`): `YYYY-MM-DDTHH:MM:SS[.fff...](Z|±HH:MM)`
with range validation, returning `none` on any parse failure. -/
def rfc3339Parse (s : String) : Option GoTime := do
  let (y, mo, d, h, mi, se, cs) ← parseYMDHMS s.data
  let (ns, cs) ← parseFrac cs
  let (ofs, cs) ← parseOffset cs
  if cs.isEmpty && 1 ≤ mo && mo ≤ 12 && 1 ≤ d && d ≤ daysInMonth y mo
      && h ≤ 23 && mi ≤ 59 && se ≤ 59 then
    some ⟨daysFromCivil (Int.ofNat y) (Int.ofNat mo) (Int.ofNat d) * 86400
            + Int.ofNat (h * 3600 + mi * 60 + se) - ofs, ns⟩
  else none

/-- Model of `time.Parse`'s Go calling convention: the parsed time (zero
on failure) paired with the error. -/
def goTimeParse (s : String) : GoTime × Option String :=
  match rfc3339Parse s with
  | some t => (t, none)
  | none => (zeroGoTime, some ("parsing time " ++ s))

/-- Model of `strconv.ParseFloat(s, 64)` for the plain decimal literals
carried by the feed: optional sign, integer digits, optional fractional
digits (at least one digit overall), exact rational value. -/
def parseFloat? (s : String) : Option ℚ :=
  let p0 := s.data
  let sp : Int × List Char :=
    match p0 with
    | '+' :: r => (1, r)
    | '-' :: r => (-1, r)
    | _ => (1, p0)
  let ip := takeDigits sp.2
  let ival := ip.1.foldl (fun a d => a * 10 + d) 0
  match ip.2 with
  | [] =>
      if ip.1.isEmpty then none
      else some (mkRat (sp.1 * Int.ofNat ival) 1)
  | '.' :: cs2 =>
      let fp := takeDigits cs2
      if fp.2.isEmpty && !(ip.1.isEmpty && fp.1.isEmpty) then
        let fval := fp.1.foldl (fun a d => a * 10 + d) 0
        some (mkRat (sp.1 * Int.ofNat (ival * 10 ^ fp.1.length + fval)) (10 ^ fp.1.length))
      else none
  | _ => none

/-- `Quote` from `client.go`: one price level. -/
structure Quote where
  Liquidity : ℚ
  Price : String
  deriving DecidableEq, Repr

/-- `Quote.PriceAsFloat`: parse the price text; on failure return 0 and
the error. -/
def Quote.PriceAsFloat (q : Quote) : ℚ × Option String :=
  match parseFloat? q.Price with
  | some v => (v, none)
  | none => (0, some ("strconv.ParseFloat: parsing " ++ q.Price))

/-- `Tick` from `client.go`; the Go field `Type` is spelled `type'`.
`parsedTime` is the unexported memoization field (a zero `time.Time`
until the first successful parse). -/
structure Tick where
  Asks : List Quote := []
  Bids : List Quote := []
  CloseoutAsk : String := ""
  CloseoutBid : String := ""
  Instrument : String := ""
  Status : String := ""
  Time : String := ""
  type' : String := ""
  parsedTime : GoTime := zeroGoTime
  deriving DecidableEq, Repr

/-- `Tick.IsHeartbeat`. -/
def Tick.IsHeartbeat (t : Tick) : Bool := "HEARTBEAT" == t.type'

/-- `Tick.IsTradeable`. -/
def Tick.IsTradeable (t : Tick) : Bool := "tradeable" == t.Status

/-- `Tick.parseTime`: memoized timestamp parse. Returns the Go result
pair together with the (possibly updated) receiver. -/
def Tick.parseTime (t : Tick) : (GoTime × Option String) × Tick :=
  if !t.parsedTime.isZero then ((t.parsedTime, none), t)
  else
    match goTimeParse t.Time with
    | (pt, some e) => ((pt, some e), t)
    | (pt, none) => ((pt, none), { t with parsedTime := pt })

/-- `Tick.UnixTimestamp`. -/
def Tick.UnixTimestamp (t : Tick) : (Int × Option String) × Tick :=
  match t.parseTime with
  | ((_, some e), t2) => ((0, some e), t2)
  | ((pt, none), t2) => ((pt.unix, none), t2)

/-- `Tick.Nanoseconds`. -/
def Tick.Nanoseconds (t : Tick) : (Int × Option String) × Tick :=
  match t.parseTime with
  | ((_, some e), t2) => ((0, some e), t2)
  | ((pt, none), t2) => ((pt.nanosecond, none), t2)

/-- One iteration of the `BestAsk` accumulator update:
`if 0 == best { best = val } else if val < best { best = val }`. -/
def askStep (best val : ℚ) : ℚ :=
  if best = 0 then val else if val < best then val else best

/-- One iteration of the `BestBid` accumulator update:
`if val > best { best = val }`. -/
def bidStep (best val : ℚ) : ℚ :=
  if val > best then val else best

/-- The `for` loop of `Tick.BestAsk`. -/
def bestAskLoop : List Quote → ℚ → ℚ × Option String
  | [], best => (best, none)
  | q :: rest, best =>
      match q.PriceAsFloat with
      | (_, some e) => (0, some e)
      | (val, none) => bestAskLoop rest (askStep best val)

/-- The `for` loop of `Tick.BestBid`. -/
def bestBidLoop : List Quote → ℚ → ℚ × Option String
  | [], best => (best, none)
  | q :: rest, best =>
      match q.PriceAsFloat with
      | (_, some e) => (0, some e)
      | (val, none) => bestBidLoop rest (bidStep best val)

/-- `Tick.BestAsk`: lowest ask, accumulator starting at `var best float64`. -/
def Tick.BestAsk (t : Tick) : ℚ × Option String :=
  if t.Asks.length = 0 then (0, none)
  else bestAskLoop t.Asks 0

/-- `Tick.BestBid`: highest bid, accumulator starting at `var best float64`. -/
def Tick.BestBid (t : Tick) : ℚ × Option String :=
  if t.Bids.length = 0 then (0, none)
  else bestBidLoop t.Bids 0


/-!  Wire-level line models and the streaming run loops. -/

/-- The fields a price-stream JSON line may carry (the `Tick` schema).
`none` means the key is absent from the line; `json.Unmarshal` into the
reused `Tick` leaves the corresponding field untouched. -/
structure TickLine where
  asks : Option (List Quote) := none
  bids : Option (List Quote) := none
  closeoutAsk : Option String := none
  closeoutBid : Option String := none
  instrument : Option String := none
  status : Option String := none
  time : Option String := none
  type' : Option String := none
  deriving DecidableEq, Repr

/-- Effect of `json.Unmarshal(line, tick)` on the reused `Tick`: present
fields are overwritten, absent fields keep their previous values; the
unexported `parsedTime` is never touched by the decoder. -/
def Tick.applyLine (t : Tick) (l : TickLine) : Tick :=
  { Asks := l.asks.getD t.Asks
    Bids := l.bids.getD t.Bids
    CloseoutAsk := l.closeoutAsk.getD t.CloseoutAsk
    CloseoutBid := l.closeoutBid.getD t.CloseoutBid
    Instrument := l.instrument.getD t.Instrument
    Status := l.status.getD t.Status
    Time := l.time.getD t.Time
    type' := l.type'.getD t.type'
    parsedTime := t.parsedTime }

/-- One read of the price stream: either the line read itself fails, or
it yields a line whose JSON decode succeeds (with the parsed field set)
or fails (malformed JSON). -/
inductive PriceEvent where
  | readError (e : String)
  | line (dec : Except String TickLine)
  deriving Repr

/-- Outcome of feeding a finite list of events to a run loop: the loop
either returned an error, or is still blocked awaiting the next read
(the Go loop has no normal-return path). -/
inductive RunOutcome where
  | errored (msg : String)
  | awaiting
  deriving DecidableEq, Repr

/-- The streaming loop of `Client.Run` after a successful connection,
over a finite prefix of the stream. For each successfully decoded line
it records `some tick` when the handler was invoked with that (merged)
tick and `none` when the line was skipped. -/
def runPrice (t : Tick) : List PriceEvent → List (Option Tick) × RunOutcome
  | [] => ([], .awaiting)
  | .readError e :: _ => ([], .errored ("reader.ReadBytes:" ++ e))
  | .line (.error e) :: _ => ([], .errored ("json.Unmarshal:" ++ e))
  | .line (.ok l) :: rest =>
      let t2 := t.applyLine l
      let r := runPrice t2 rest
      ((if t2.IsTradeable then some t2 else none) :: r.1, r.2)

/-- `Transaction` from the source; the Go field `Type` is spelled
`type'`. `Time` is the only structured field: it is a `time.Time`
decoded from the line's `"time"` string. -/
structure Transaction where
  Id : String := ""
  Time : GoTime := zeroGoTime
  UserId : Int := 0
  AccountID : String := ""
  BatchId : String := ""
  RequestId : String := ""
  type' : String := ""
  OrderId : String := ""
  ClientOrderId : String := ""
  Instrument : String := ""
  Units : String := ""
  HomeConversionFactors : String := ""
  Price : String := ""
  FullVWAP : String := ""
  FullPrice : String := ""
  Reason : String := ""
  Pl : String := ""
  QuotePl : String := ""
  Financing : String := ""
  BaseFinancing : String := ""
  QuoteFinancing : String := ""
  Commission : String := ""
  GuaranteedExecutionFee : String := ""
  QuoteGuaranteedExecutionFee : String := ""
  AccountBalance : String := ""
  TradeOpened : String := ""
  TradeClosed : String := ""
  TradeReduced : String := ""
  HalfSpreadCost : String := ""
  deriving DecidableEq, Repr

/-- `Transaction.IsOrderFill`. -/
def Transaction.IsOrderFill (t : Transaction) : Bool := "ORDER_FILL" == t.type'

/-- `Transaction.IsMarketOrderTradeClose`. -/
def Transaction.IsMarketOrderTradeClose (t : Transaction) : Bool :=
  "MARKET_ORDER_TRADE_CLOSE" == t.Reason

/-- `Transaction.IsTakeProfitOrder`. -/
def Transaction.IsTakeProfitOrder (t : Transaction) : Bool :=
  "TAKE_PROFIT_ORDER" == t.Reason

/-- The fields a transaction-stream JSON line may carry. All are plain
strings except `userID` (an integer) and `time`, whose raw string must
decode through `time.Time.UnmarshalJSON`. -/
structure TxLine where
  id : Option String := none
  time : Option String := none
  userID : Option Int := none
  accountID : Option String := none
  batchID : Option String := none
  requestID : Option String := none
  type' : Option String := none
  orderID : Option String := none
  clientOrderID : Option String := none
  instrument : Option String := none
  units : Option String := none
  homeConversionFactors : Option String := none
  price : Option String := none
  fullVWAP : Option String := none
  fullPrice : Option String := none
  reason : Option String := none
  pl : Option String := none
  quotePL : Option String := none
  financing : Option String := none
  baseFinancing : Option String := none
  quoteFinancing : Option String := none
  commission : Option String := none
  guaranteedExecutionFee : Option String := none
  quoteGuaranteedExecutionFee : Option String := none
  accountBalance : Option String := none
  tradeOpened : Option String := none
  tradeClosed : Option String := none
  tradeReduced : Option String := none
  halfSpreadCost : Option String := none
  deriving DecidableEq, Repr

/-- Merge of the string and integer fields of a line into the reused
`Transaction` (everything except the structured `Time`). -/
def Transaction.mergePlain (t : Transaction) (l : TxLine) : Transaction :=
  { t with
    Id := l.id.getD t.Id
    UserId := l.userID.getD t.UserId
    AccountID := l.accountID.getD t.AccountID
    BatchId := l.batchID.getD t.BatchId
    RequestId := l.requestID.getD t.RequestId
    type' := l.type'.getD t.type'
    OrderId := l.orderID.getD t.OrderId
    ClientOrderId := l.clientOrderID.getD t.ClientOrderId
    Instrument := l.instrument.getD t.Instrument
    Units := l.units.getD t.Units
    HomeConversionFactors := l.homeConversionFactors.getD t.HomeConversionFactors
    Price := l.price.getD t.Price
    FullVWAP := l.fullVWAP.getD t.FullVWAP
    FullPrice := l.fullPrice.getD t.FullPrice
    Reason := l.reason.getD t.Reason
    Pl := l.pl.getD t.Pl
    QuotePl := l.quotePL.getD t.QuotePl
    Financing := l.financing.getD t.Financing
    BaseFinancing := l.baseFinancing.getD t.BaseFinancing
    QuoteFinancing := l.quoteFinancing.getD t.QuoteFinancing
    Commission := l.commission.getD t.Commission
    GuaranteedExecutionFee := l.guaranteedExecutionFee.getD t.GuaranteedExecutionFee
    QuoteGuaranteedExecutionFee :=
      l.quoteGuaranteedExecutionFee.getD t.QuoteGuaranteedExecutionFee
    AccountBalance := l.accountBalance.getD t.AccountBalance
    TradeOpened := l.tradeOpened.getD t.TradeOpened
    TradeClosed := l.tradeClosed.getD t.TradeClosed
    TradeReduced := l.tradeReduced.getD t.TradeReduced
    HalfSpreadCost := l.halfSpreadCost.getD t.HalfSpreadCost }

/-- Effect of `json.Unmarshal(line, transaction)`: all plain fields are
merged, and a present `"time"` value must parse per RFC 3339 through
`time.Time.UnmarshalJSON`; if it does not, the decode of the whole line
fails with that error. -/
def Transaction.unmarshal (t : Transaction) (l : TxLine) : Except String Transaction :=
  match l.time with
  | none => .ok (t.mergePlain l)
  | some s =>
      match rfc3339Parse s with
      | none => .error ("parsing time " ++ s)
      | some gt => .ok { t.mergePlain l with Time := gt }

/-- One read of the transaction stream. -/
inductive TxEvent where
  | readError (e : String)
  | line (dec : Except String TxLine)
  deriving Repr

/-- The streaming loop of `Client.RunTransactions` after a successful
connection, over a finite prefix of the stream. -/
def runTx (t : Transaction) : List TxEvent → List (Option Transaction) × RunOutcome
  | [] => ([], .awaiting)
  | .readError e :: _ => ([], .errored ("reader.ReadBytes:" ++ e))
  | .line (.error e) :: _ => ([], .errored ("json.Unmarshal:" ++ e))
  | .line (.ok l) :: rest =>
      match t.unmarshal l with
      | .error e => ([], .errored ("json.Unmarshal:" ++ e))
      | .ok t2 =>
          let r := runTx t2 rest
          ((if t2.IsOrderFill && (t2.IsMarketOrderTradeClose || t2.IsTakeProfitOrder)
              then some t2 else none) :: r.1, r.2)

/-!  The client constructors, the process-wide `baseUrl`, and `url()`. -/

/-- Model of `fmt.Sprintf` for templates whose only verbs are `%s`:
each `%s` consumes the next argument (`%!s(MISSING)` when arguments run
out), and leftover arguments are reported in an `%!(EXTRA ...)` suffix. -/
def sprintfS : List Char → List String → String
  | '%' :: 's' :: cs, a :: args => a ++ sprintfS cs args
  | '%' :: 's' :: cs, [] => "%!s(MISSING)" ++ sprintfS cs []
  | c :: cs, args => String.singleton c ++ sprintfS cs args
  | [], [] => ""
  | [], args =>
      "%!(EXTRA " ++ String.intercalate ", " (args.map (fun a => "string=" ++ a)) ++ ")"

/-- `fmt.Sprintf` over a template string. -/
def goSprintf (tmpl : String) (args : List String) : String :=
  sprintfS tmpl.data args

/-- `Client` from `src/unnamed/part_000`. -/
structure Client where
  account : String
  token : String
  currencies : String
  client_type : String
  deriving DecidableEq, Repr

/-- The four fixed endpoint templates assigned to the package-level
`baseUrl` variable. -/
def pricingLiveTmpl : String :=
  "https://stream-fxtrade.oanda.com/v3/accounts/%s/pricing/stream?instruments=%s"

def pricingPracticeTmpl : String :=
  "https://stream-fxpractice.oanda.com/v3/accounts/%s/pricing/stream?instruments=%s"

def txLiveTmpl : String :=
  "https://api-fxtrade.oanda.com/v3/accounts/%s/transactions/stream"

def txPracticeTmpl : String :=
  "https://api-fxpractice.oanda.com/v3/accounts/%s/transactions/stream"

/-- `New`: builds a price client and assigns the package-level
`baseUrl` (the returned `String` is the new value of that global; the
prior value is discarded). -/
def New (account token currencies : String) (live : Bool) (_baseUrl : String) :
    Client × String :=
  (⟨account, token, currencies, "PRICE"⟩,
   if live then pricingLiveTmpl else pricingPracticeTmpl)

/-- `NewTransaction`: builds a transaction client and assigns the
package-level `baseUrl`. -/
def NewTransaction (account token : String) (live : Bool) (_baseUrl : String) :
    Client × String :=
  (⟨account, token, "", "TRANSACTION"⟩,
   if live then txLiveTmpl else txPracticeTmpl)

/-- `Client.url`: formats the current global `baseUrl` with the
client's account and currency list. -/
def Client.url (c : Client) (baseUrl : String) : String :=
  goSprintf baseUrl [c.account, c.currencies]

/-- A constructor call, for reasoning about sequences of constructions
sharing the global `baseUrl`. -/
inductive Ctor where
  | price (account token currencies : String) (live : Bool)
  | transaction (account token : String) (live : Bool)
  deriving DecidableEq, Repr

/-- The template a constructor installs into `baseUrl`. -/
def Ctor.template : Ctor → String
  | .price _ _ _ live => if live then pricingLiveTmpl else pricingPracticeTmpl
  | .transaction _ _ live => if live then txLiveTmpl else txPracticeTmpl

/-- Run one constructor against the current global state. -/
def applyCtor (g : String) : Ctor → Client × String
  | .price a t c live => New a t c live g
  | .transaction a t live => NewTransaction a t live g

/-- Run a sequence of constructions, collecting the clients and the
final value of the global `baseUrl`. -/
def runCtors (g : String) : List Ctor → List Client × String
  | [] => ([], g)
  | c :: rest =>
      ((applyCtor g c).1 :: (runCtors (applyCtor g c).2 rest).1,
       (runCtors (applyCtor g c).2 rest).2)

/-!  Derived notions used to state the claims. -/

/-- A price-stream read that neither fails nor delivers malformed JSON. -/
def PriceEvent.isGood : PriceEvent → Bool
  | .line (.ok _) => true
  | _ => false

/-- The error message `Run` returns for a failing event. -/
def PriceEvent.errMsg : PriceEvent → String
  | .readError e => "reader.ReadBytes:" ++ e
  | .line (.error e) => "json.Unmarshal:" ++ e
  | .line (.ok _) => ""

/-- Whether a transaction line's `"time"` value (if present) decodes. -/
def txTimeOk (l : TxLine) : Bool :=
  match l.time with
  | none => true
  | some s => (rfc3339Parse s).isSome

/-- A transaction-stream read whose line decodes completely. -/
def TxEvent.isGood : TxEvent → Bool
  | .line (.ok l) => txTimeOk l
  | _ => false

/-- The error message `RunTransactions` returns for a failing event. -/
def TxEvent.errMsg : TxEvent → String
  | .readError e => "reader.ReadBytes:" ++ e
  | .line (.error e) => "json.Unmarshal:" ++ e
  | .line (.ok l) =>
      match l.time with
      | some s => "json.Unmarshal:" ++ ("parsing time " ++ s)
      | none => ""

/-- The successive merged `Transaction` records decoded by
`RunTransactions`, up to the first failing event. -/
def txRecords (t : Transaction) : List TxEvent → List Transaction
  | [] => []
  | .readError _ :: _ => []
  | .line (.error _) :: _ => []
  | .line (.ok l) :: rest =>
      match t.unmarshal l with
      | .error _ => []
      | .ok t2 => t2 :: txRecords t2 rest

/-!  Concrete stream data used by counterexamples and witnesses (the
price lines are the documented sample messages from the source). -/

/-- The sample tradeable `PRICE` line from the source comments. -/
def priceLineTradeable : TickLine :=
  { asks := some [⟨10000000, "117.680"⟩, ⟨10000000, "117.682"⟩]
    bids := some [⟨10000000, "117.665"⟩, ⟨10000000, "117.663"⟩]
    closeoutAsk := some "117.684"
    closeoutBid := some "117.661"
    instrument := some "USD_JPY"
    status := some "tradeable"
    time := some "2016-12-20T05:55:35.676011610Z"
    type' := some "PRICE" }

/-- The sample `HEARTBEAT` line from the source comments: only `time`
and `type` are on the wire. -/
def heartbeatLine : TickLine :=
  { time := some "2016-12-20T05:55:46.064294036Z"
    type' := some "HEARTBEAT" }

/-- A tick whose only bid parses to a negative number. -/
def tickNegBid : Tick := { Bids := [⟨1, "-1"⟩] }

/-- A tick whose timestamp text denotes Go's zero time instant. -/
def tickZeroTime : Tick := { Time := "0001-01-01T00:00:00Z" }

/-- A tick with an ordinary timestamp, for the memoization witness. -/
def tickMemoW : Tick := { Time := "1970-01-01T00:00:01Z" }

/-- A tick whose timestamp text does not parse. -/
def tickBadTime : Tick := { Time := "garbage" }

/-- A tick with two well-formed asks, for the best-ask witness. -/
def tickAsksW : Tick := { Asks := [⟨10000000, "117.682"⟩, ⟨10000000, "117.680"⟩] }

/-- A tick with two well-formed bids, for the best-bid witness. -/
def tickBidsW : Tick := { Bids := [⟨10000000, "117.665"⟩, ⟨10000000, "117.663"⟩] }

/-- A transaction line whose `"time"` value is not RFC 3339. -/
def txLineBadTime : TxLine := { time := some "notatime" }

/-!  Lemmas about the best-ask / best-bid folds. -/

theorem bestAskLoop_parses :
    ∀ (qs : List Quote) (vals : List ℚ) (best : ℚ),
      qs.map (fun q => parseFloat? q.Price) = vals.map some →
      bestAskLoop qs best = (vals.foldl askStep best, none) := by
  intro qs
  induction qs with
  | nil =>
      intro vals best h
      cases vals with
      | nil => rfl
      | cons v vs => simp at h
  | cons q qs ih =>
      intro vals best h
      cases vals with
      | nil => simp at h
      | cons v vs =>
          rw [List.map_cons, List.map_cons] at h
          injection h with h1 h2
          have hq : q.PriceAsFloat = (v, none) := by
            rw [Quote.PriceAsFloat, h1]
          simp only [bestAskLoop, hq, List.foldl_cons]
          exact ih vs (askStep best v) h2

theorem bestBidLoop_parses :
    ∀ (qs : List Quote) (vals : List ℚ) (best : ℚ),
      qs.map (fun q => parseFloat? q.Price) = vals.map some →
      bestBidLoop qs best = (vals.foldl bidStep best, none) := by
  intro qs
  induction qs with
  | nil =>
      intro vals best h
      cases vals with
      | nil => rfl
      | cons v vs => simp at h
  | cons q qs ih =>
      intro vals best h
      cases vals with
      | nil => simp at h
      | cons v vs =>
          rw [List.map_cons, List.map_cons] at h
          injection h with h1 h2
          have hq : q.PriceAsFloat = (v, none) := by
            rw [Quote.PriceAsFloat, h1]
          simp only [bestBidLoop, hq, List.foldl_cons]
          exact ih vs (bidStep best v) h2

theorem askStep_cases (best v : ℚ) : askStep best v = best ∨ askStep best v = v := by
  unfold askStep
  split_ifs
  · exact Or.inr rfl
  · exact Or.inr rfl
  · exact Or.inl rfl

theorem foldl_askStep_mem :
    ∀ (vs : List ℚ) (best : ℚ),
      vs.foldl askStep best = best ∨ vs.foldl askStep best ∈ vs := by
  intro vs
  induction vs with
  | nil => intro best; exact Or.inl rfl
  | cons v vs ih =>
      intro best
      rw [List.foldl_cons]
      rcases ih (askStep best v) with h | h
      · rw [h]
        rcases askStep_cases best v with h2 | h2
        · exact Or.inl h2
        · right; rw [h2]; exact List.mem_cons_self _ _
      · right; exact List.mem_cons_of_mem _ h

theorem foldl_askStep_min :
    ∀ (vs : List ℚ) (best : ℚ), best ≠ 0 → (∀ x ∈ vs, x ≠ 0) →
      vs.foldl askStep best ≤ best ∧ ∀ x ∈ vs, vs.foldl askStep best ≤ x := by
  intro vs
  induction vs with
  | nil => intro best _ _; exact ⟨le_refl _, by simp⟩
  | cons v vs ih =>
      intro best hb hvs
      have hv : v ≠ 0 := hvs v (List.mem_cons_self _ _)
      have hle_best : askStep best v ≤ best := by
        unfold askStep
        split_ifs with h1 h2
        · exact absurd h1 hb
        · exact le_of_lt h2
        · exact le_refl _
      have hle_v : askStep best v ≤ v := by
        unfold askStep
        split_ifs with h1 h2
        · exact absurd h1 hb
        · exact le_refl _
        · exact le_of_not_lt h2
      have hne : askStep best v ≠ 0 := by
        rcases askStep_cases best v with h | h
        · rw [h]; exact hb
        · rw [h]; exact hv
      have ihh := ih (askStep best v) hne (fun x hx => hvs x (List.mem_cons_of_mem _ hx))
      rw [List.foldl_cons]
      refine ⟨le_trans ihh.1 hle_best, ?_⟩
      intro x hx
      rcases List.mem_cons.mp hx with rfl | hx2
      · exact le_trans ihh.1 hle_v
      · exact ihh.2 x hx2

theorem bidStep_eq_max (b v : ℚ) : bidStep b v = max b v := by
  unfold bidStep
  rcases le_or_lt v b with h | h
  · rw [if_neg (not_lt.mpr h), max_eq_left h]
  · rw [if_pos h, max_eq_right (le_of_lt h)]

theorem foldl_bidStep_eq_max :
    ∀ (vs : List ℚ) (b : ℚ), vs.foldl bidStep b = vs.foldl max b := by
  intro vs
  induction vs with
  | nil => intro b; rfl
  | cons v vs ih =>
      intro b
      rw [List.foldl_cons, List.foldl_cons, bidStep_eq_max, ih]

theorem foldl_max_le :
    ∀ (vs : List ℚ) (b : ℚ),
      b ≤ vs.foldl max b ∧ ∀ x ∈ vs, x ≤ vs.foldl max b := by
  intro vs
  induction vs with
  | nil => intro b; exact ⟨le_refl _, by simp⟩
  | cons v vs ih =>
      intro b
      rw [List.foldl_cons]
      have h := ih (max b v)
      refine ⟨le_trans (le_max_left b v) h.1, ?_⟩
      intro x hx
      rcases List.mem_cons.mp hx with rfl | hx2
      · exact le_trans (le_max_right b x) h.1
      · exact h.2 x hx2

theorem foldl_max_mem :
    ∀ (vs : List ℚ) (b : ℚ), vs.foldl max b = b ∨ vs.foldl max b ∈ vs := by
  intro vs
  induction vs with
  | nil => intro b; exact Or.inl rfl
  | cons v vs ih =>
      intro b
      rw [List.foldl_cons]
      rcases ih (max b v) with h | h
      · rw [h]
        rcases max_choice b v with h2 | h2
        · exact Or.inl h2
        · right; rw [h2]; exact List.mem_cons_self _ _
      · right; exact List.mem_cons_of_mem _ h

/-- C8: for a `Tick` with empty `asks`, `BestAsk()` returns 0 and no
error; for a `Tick` with empty `bids`, `BestBid()` returns 0 and no
error. -/
theorem Best_empty (t : Tick) :
    (t.Asks = [] → t.BestAsk = (0, none)) ∧ (t.Bids = [] → t.BestBid = (0, none)) := by
  constructor
  · intro h; simp [Tick.BestAsk, h]
  · intro h; simp [Tick.BestBid, h]

theorem Best_empty_witness :
    (({} : Tick).BestAsk = (0, none)) ∧ (({} : Tick).BestBid = (0, none)) :=
  ⟨(Best_empty {}).1 rfl, (Best_empty {}).2 rfl⟩

/-- C2: for non-empty `asks` all of whose price texts parse, `BestAsk()`
returns without error a value that is one of the parsed prices and, as
long as no parsed price is exactly 0, is their minimum; and the loop's
accumulator update treats a running best of exactly 0 as unset, so the
next examined value replaces it unconditionally. -/
theorem BestAsk_minimum (t : Tick) (vals : List ℚ)
    (hmap : t.Asks.map (fun q => parseFloat? q.Price) = vals.map some)
    (hne : t.Asks ≠ []) :
    ∃ v, t.BestAsk = (v, none) ∧ v ∈ vals ∧
      ((0 : ℚ) ∉ vals → ∀ x ∈ vals, v ≤ x) ∧ (∀ w : ℚ, askStep 0 w = w) := by
  have hlen : ¬t.Asks.length = 0 := fun h => hne (List.length_eq_zero.mp h)
  have hloop := bestAskLoop_parses t.Asks vals 0 hmap
  have hBA : t.BestAsk = (vals.foldl askStep 0, none) := by
    rw [Tick.BestAsk, if_neg hlen, hloop]
  cases vals with
  | nil =>
      exfalso
      apply hne
      cases hA : t.Asks with
      | nil => rfl
      | cons a as => rw [hA] at hmap; simp at hmap
  | cons v vs =>
      have h0 : askStep 0 v = v := by unfold askStep; simp
      refine ⟨(v :: vs).foldl askStep 0, hBA, ?_, ?_, fun w => by unfold askStep; simp⟩
      · rw [List.foldl_cons, h0]
        rcases foldl_askStep_mem vs v with h | h
        · rw [h]; exact List.mem_cons_self _ _
        · exact List.mem_cons_of_mem _ h
      · intro hz x hx
        have hv : v ≠ 0 := fun h => hz (by rw [← h]; exact List.mem_cons_self _ _)
        have hvs0 : ∀ y ∈ vs, y ≠ 0 :=
          fun y hy hy0 => hz (hy0 ▸ List.mem_cons_of_mem _ hy)
        have hmin := foldl_askStep_min vs v hv hvs0
        rw [List.foldl_cons, h0]
        rcases List.mem_cons.mp hx with rfl | hx2
        · exact hmin.1
        · exact hmin.2 x hx2

theorem BestAsk_minimum_witness :
    ∃ v, tickAsksW.BestAsk = (v, none) ∧ v ∈ [mkRat 117682 1000, mkRat 117680 1000] ∧
      ((0 : ℚ) ∉ [mkRat 117682 1000, mkRat 117680 1000] →
        ∀ x ∈ [mkRat 117682 1000, mkRat 117680 1000], v ≤ x) ∧
      (∀ w : ℚ, askStep 0 w = w) :=
  BestAsk_minimum tickAsksW [mkRat 117682 1000, mkRat 117680 1000] (by decide) (by decide)

/-- C3, counterexample to the claim as stated: a bid list whose only
price text parses to the number -1 is non-empty with all prices valid,
yet `BestBid()` returns 0, not the maximum -1. -/
theorem BestBid_negative_cex :
    tickNegBid.Bids.map (fun q => parseFloat? q.Price) = [some (mkRat (-1) 1)] ∧
    tickNegBid.Bids ≠ [] ∧
    tickNegBid.BestBid = (0, none) ∧ ¬((0 : ℚ) = mkRat (-1) 1) := by decide

/-- C3 (amended): for non-empty `bids` all of whose price texts parse,
with at least one parsed price non-negative, `BestBid()` returns the
maximum of the parsed prices without error; the accumulator update has
no zero special case — it is exactly binary max. -/
theorem BestBid_maximum (t : Tick) (vals : List ℚ)
    (hmap : t.Bids.map (fun q => parseFloat? q.Price) = vals.map some)
    (hne : t.Bids ≠ [])
    (hnonneg : ∃ x ∈ vals, 0 ≤ x) :
    ∃ v, t.BestBid = (v, none) ∧ v ∈ vals ∧ (∀ x ∈ vals, x ≤ v) ∧
      (∀ b w : ℚ, bidStep b w = max b w) := by
  have hlen : ¬t.Bids.length = 0 := fun h => hne (List.length_eq_zero.mp h)
  have hloop := bestBidLoop_parses t.Bids vals 0 hmap
  have hBB : t.BestBid = (vals.foldl bidStep 0, none) := by
    rw [Tick.BestBid, if_neg hlen, hloop]
  rw [foldl_bidStep_eq_max] at hBB
  refine ⟨vals.foldl max 0, hBB, ?_, (foldl_max_le vals 0).2, bidStep_eq_max⟩
  rcases foldl_max_mem vals 0 with h | h
  · obtain ⟨x0, hx0, hx0n⟩ := hnonneg
    have hle : x0 ≤ vals.foldl max 0 := (foldl_max_le vals 0).2 x0 hx0
    rw [h] at hle ⊢
    have hx00 : x0 = 0 := le_antisymm hle hx0n
    rw [← hx00]
    exact hx0
  · exact h

theorem BestBid_maximum_witness :
    ∃ v, tickBidsW.BestBid = (v, none) ∧ v ∈ [mkRat 117665 1000, mkRat 117663 1000] ∧
      (∀ x ∈ [mkRat 117665 1000, mkRat 117663 1000], x ≤ v) ∧
      (∀ b w : ℚ, bidStep b w = max b w) :=
  BestBid_maximum tickBidsW [mkRat 117665 1000, mkRat 117663 1000]
    (by decide) (by decide) (by decide)

/-- C4, counterexample to the claim as stated: for a `Tick` whose time
text denotes Go's zero time instant, the first `parseTime` call succeeds
but does not stick (the memo field stays zero-valued), so a second call
after the `Time` text is mutated re-parses and raises an error. -/
theorem parseTime_zero_time_cex :
    tickZeroTime.parseTime.1.2 = none ∧
    (({ tickZeroTime.parseTime.2 with Time := "bogus" }).parseTime).1.2 ≠ none := by
  decide

/-- C4 (amended): for every `Tick` whose `parseTime` succeeds with a
timestamp other than Go's zero time, every subsequent call returns the
same parsed value with no error and without re-parsing — the result and
the state are independent of whatever the `Time` text has been mutated
to in between. -/
theorem parseTime_memoized (t : Tick) (v : GoTime)
    (h : t.parseTime.1 = (v, none)) (hz : v.isZero = false) :
    ∀ s : String,
      ({ t.parseTime.2 with Time := s }).parseTime
        = ((v, none), { t.parseTime.2 with Time := s }) := by
  intro s
  cases hzb : t.parsedTime.isZero with
  | false =>
      have hT : t.parseTime = ((t.parsedTime, none), t) := by
        simp [Tick.parseTime, hzb]
      rw [hT] at h ⊢
      simp only [Prod.mk.injEq] at h
      rw [← h.1]
      simp [Tick.parseTime, hzb]
  | true =>
      rcases hg : goTimeParse t.Time with ⟨pt, e?⟩
      cases e? with
      | some e =>
          have hT : t.parseTime = ((pt, some e), t) := by
            simp [Tick.parseTime, hzb, hg]
          rw [hT] at h
          simp at h
      | none =>
          have hT : t.parseTime = ((pt, none), { t with parsedTime := pt }) := by
            simp [Tick.parseTime, hzb, hg]
          rw [hT] at h ⊢
          simp only [Prod.mk.injEq] at h
          rw [← h.1] at hz ⊢
          simp [Tick.parseTime, hz]

theorem parseTime_memoized_witness :
    ({ tickMemoW.parseTime.2 with Time := "zzz" }).parseTime
      = ((⟨1, 0⟩, none), { tickMemoW.parseTime.2 with Time := "zzz" }) :=
  parseTime_memoized tickMemoW ⟨1, 0⟩ (by decide) (by decide) "zzz"

/-- C9: if the time text does not parse (and nothing is cached yet),
`parseTime` returns the error with the zero time value and leaves the
tick — in particular its `parsedTime` cache — unchanged;
`UnixTimestamp` and `Nanoseconds` return 0 together with that error;
and a later call parses whatever the `Time` text is by then. -/
theorem parseTime_failure (t : Tick)
    (hz : t.parsedTime.isZero = true) (hp : rfc3339Parse t.Time = none) :
    t.parseTime = ((zeroGoTime, some ("parsing time " ++ t.Time)), t) ∧
    t.UnixTimestamp = ((0, some ("parsing time " ++ t.Time)), t) ∧
    t.Nanoseconds = ((0, some ("parsing time " ++ t.Time)), t) ∧
    (∀ (s : String) (gt : GoTime), rfc3339Parse s = some gt →
      ({ t with Time := s }).parseTime
        = ((gt, none), { t with Time := s, parsedTime := gt })) := by
  have hgp : goTimeParse t.Time = (zeroGoTime, some ("parsing time " ++ t.Time)) := by
    rw [goTimeParse, hp]
  have h1 : t.parseTime = ((zeroGoTime, some ("parsing time " ++ t.Time)), t) := by
    simp [Tick.parseTime, hz, hgp]
  refine ⟨h1, ?_, ?_, ?_⟩
  · simp [Tick.UnixTimestamp, h1]
  · simp [Tick.Nanoseconds, h1]
  · intro s gt hgs
    have hgp2 : goTimeParse s = (gt, none) := by rw [goTimeParse, hgs]
    simp [Tick.parseTime, hz, hgp2]

theorem parseTime_failure_witness :
    tickBadTime.parseTime
      = ((zeroGoTime, some ("parsing time " ++ tickBadTime.Time)), tickBadTime) ∧
    tickBadTime.UnixTimestamp
      = ((0, some ("parsing time " ++ tickBadTime.Time)), tickBadTime) ∧
    tickBadTime.Nanoseconds
      = ((0, some ("parsing time " ++ tickBadTime.Time)), tickBadTime) ∧
    ({ tickBadTime with Time := "1970-01-01T00:00:01Z" }).parseTime
      = ((⟨1, 0⟩, none),
         { tickBadTime with Time := "1970-01-01T00:00:01Z", parsedTime := ⟨1, 0⟩ }) := by
  have h := parseTime_failure tickBadTime (by decide) (by decide)
  exact ⟨h.1, h.2.1, h.2.2.1, h.2.2.2 "1970-01-01T00:00:01Z" ⟨1, 0⟩ (by decide)⟩

/-!  Run-loop lemmas. -/

theorem runPrice_good_prefix :
    ∀ (pre : List PriceEvent) (t : Tick) (bad : PriceEvent) (rest : List PriceEvent),
      (∀ ev ∈ pre, ev.isGood = true) → bad.isGood = false →
      runPrice t (pre ++ bad :: rest) = ((runPrice t pre).1, .errored bad.errMsg) := by
  intro pre
  induction pre with
  | nil =>
      intro t bad rest _ hbad
      cases bad with
      | readError e => rfl
      | line dec =>
          cases dec with
          | error e => rfl
          | ok l => simp [PriceEvent.isGood] at hbad
  | cons ev pre ih =>
      intro t bad rest hpre hbad
      have hev : ev.isGood = true := hpre ev (List.mem_cons_self _ _)
      have hrest : ∀ x ∈ pre, x.isGood = true :=
        fun x hx => hpre x (List.mem_cons_of_mem _ hx)
      cases ev with
      | readError e => simp [PriceEvent.isGood] at hev
      | line dec =>
          cases dec with
          | error e => simp [PriceEvent.isGood] at hev
          | ok l =>
              simp only [List.cons_append, runPrice, List.append_eq]
              rw [ih (t.applyLine l) bad rest hrest hbad]

theorem runPrice_awaiting_iff :
    ∀ (events : List PriceEvent) (t : Tick),
      (runPrice t events).2 = RunOutcome.awaiting ↔ ∀ ev ∈ events, ev.isGood = true := by
  intro events
  induction events with
  | nil => intro t; simp [runPrice]
  | cons ev rest ih =>
      intro t
      cases ev with
      | readError e => simp [runPrice, PriceEvent.isGood]
      | line dec =>
          cases dec with
          | error e => simp [runPrice, PriceEvent.isGood]
          | ok l => simp [runPrice, PriceEvent.isGood, ih (t.applyLine l)]

theorem unmarshal_timeOk (t : Transaction) (l : TxLine) :
    (txTimeOk l = true → ∃ t2, t.unmarshal l = Except.ok t2) ∧
    (txTimeOk l = false → ∃ s, l.time = some s ∧ rfc3339Parse s = none ∧
        t.unmarshal l = Except.error ("parsing time " ++ s)) := by
  constructor
  · intro h
    cases hl : l.time with
    | none => exact ⟨t.mergePlain l, by simp only [Transaction.unmarshal, hl]⟩
    | some s =>
        cases hr : rfc3339Parse s with
        | none => simp [txTimeOk, hl, hr] at h
        | some gt =>
            exact ⟨{ t.mergePlain l with Time := gt },
              by simp only [Transaction.unmarshal, hl, hr]⟩
  · intro h
    cases hl : l.time with
    | none => simp [txTimeOk, hl] at h
    | some s =>
        cases hr : rfc3339Parse s with
        | some gt => simp [txTimeOk, hl, hr] at h
        | none => exact ⟨s, rfl, hr, by simp only [Transaction.unmarshal, hl, hr]⟩

theorem runTx_good_prefix :
    ∀ (pre : List TxEvent) (t : Transaction) (bad : TxEvent) (rest : List TxEvent),
      (∀ ev ∈ pre, ev.isGood = true) → bad.isGood = false →
      runTx t (pre ++ bad :: rest) = ((runTx t pre).1, .errored bad.errMsg) := by
  intro pre
  induction pre with
  | nil =>
      intro t bad rest _ hbad
      cases bad with
      | readError e => rfl
      | line dec =>
          cases dec with
          | error e => rfl
          | ok l =>
              have hbad2 : txTimeOk l = false := by simpa [TxEvent.isGood] using hbad
              obtain ⟨s, hs1, hs2, hs3⟩ := (unmarshal_timeOk t l).2 hbad2
              simp only [List.nil_append, runTx, hs3]
              simp [TxEvent.errMsg, hs1]
  | cons ev pre ih =>
      intro t bad rest hpre hbad
      have hev : ev.isGood = true := hpre ev (List.mem_cons_self _ _)
      have hrest : ∀ x ∈ pre, x.isGood = true :=
        fun x hx => hpre x (List.mem_cons_of_mem _ hx)
      cases ev with
      | readError e => simp [TxEvent.isGood] at hev
      | line dec =>
          cases dec with
          | error e => simp [TxEvent.isGood] at hev
          | ok l =>
              have hok : txTimeOk l = true := by simpa [TxEvent.isGood] using hev
              obtain ⟨t2, ht2⟩ := (unmarshal_timeOk t l).1 hok
              simp only [List.cons_append, runTx, ht2, List.append_eq]
              rw [ih t2 bad rest hrest hbad]

theorem runTx_awaiting_iff :
    ∀ (events : List TxEvent) (t : Transaction),
      (runTx t events).2 = RunOutcome.awaiting ↔ ∀ ev ∈ events, ev.isGood = true := by
  intro events
  induction events with
  | nil => intro t; simp [runTx]
  | cons ev rest ih =>
      intro t
      cases ev with
      | readError e => simp [runTx, TxEvent.isGood]
      | line dec =>
          cases dec with
          | error e => simp [runTx, TxEvent.isGood]
          | ok l =>
              cases htok : txTimeOk l with
              | true =>
                  obtain ⟨t2, ht2⟩ := (unmarshal_timeOk t l).1 htok
                  simp [runTx, ht2, TxEvent.isGood, htok, ih t2]
              | false =>
                  obtain ⟨s, hs1, hs2, hs3⟩ := (unmarshal_timeOk t l).2 htok
                  simp [runTx, hs3, TxEvent.isGood, htok]

/-- C6: in both run loops, a failing read and a failing JSON decode
immediately terminate the loop with the wrapped error — the handler is
not invoked for the failing line and no later line is processed (the
handler-invocation record is exactly that of the good prefix) — and the
loop keeps running (awaits the next read) exactly as long as every event
is a successful read of a well-formed line: it never stops without
returning an error. -/
theorem run_loop_fail_fast :
    (∀ (t : Tick) (pre : List PriceEvent) (bad : PriceEvent) (rest : List PriceEvent),
        (∀ ev ∈ pre, ev.isGood = true) → bad.isGood = false →
        runPrice t (pre ++ bad :: rest) = ((runPrice t pre).1, .errored bad.errMsg)) ∧
    (∀ (t : Tick) (events : List PriceEvent),
        (runPrice t events).2 = RunOutcome.awaiting ↔ ∀ ev ∈ events, ev.isGood = true) ∧
    (∀ (t : Transaction) (pre : List TxEvent) (bad : TxEvent) (rest : List TxEvent),
        (∀ ev ∈ pre, ev.isGood = true) → bad.isGood = false →
        runTx t (pre ++ bad :: rest) = ((runTx t pre).1, .errored bad.errMsg)) ∧
    (∀ (t : Transaction) (events : List TxEvent),
        (runTx t events).2 = RunOutcome.awaiting ↔ ∀ ev ∈ events, ev.isGood = true) :=
  ⟨fun t pre bad rest h1 h2 => runPrice_good_prefix pre t bad rest h1 h2,
   fun t events => runPrice_awaiting_iff events t,
   fun t pre bad rest h1 h2 => runTx_good_prefix pre t bad rest h1 h2,
   fun t events => runTx_awaiting_iff events t⟩

theorem run_loop_fail_fast_witness :
    runPrice {} [PriceEvent.readError "EOF"]
      = ((runPrice ({} : Tick) []).1,
         RunOutcome.errored (PriceEvent.readError "EOF").errMsg) :=
  run_loop_fail_fast.1 {} [] (.readError "EOF") [] (by simp) rfl

/-- C1 (evaluation of the code at the failing input): the documented
sample heartbeat line carries only `time` and `type`, yet when it
arrives right after a tradeable price line, the reused decode target
keeps the stale `status:"tradeable"`, so the run loop invokes the
handler for the heartbeat line as well — both lines produce a handler
call, and the tick passed for the second line is heartbeat-typed. -/
theorem runPrice_stale_heartbeat :
    heartbeatLine.type' = some "HEARTBEAT" ∧
    heartbeatLine.status = none ∧ heartbeatLine.asks = none ∧ heartbeatLine.bids = none ∧
    (runPrice {} [PriceEvent.line (.ok priceLineTradeable),
                  PriceEvent.line (.ok heartbeatLine)]).1.map Option.isSome
      = [true, true] ∧
    ((({} : Tick).applyLine priceLineTradeable).applyLine heartbeatLine).IsHeartbeat = true ∧
    ((({} : Tick).applyLine priceLineTradeable).applyLine heartbeatLine).Status
      = "tradeable" := by
  decide

/-- C7: a decoded transaction is forwarded to the handler iff it is an
order fill whose reason is a market-order trade close or a take-profit
order; every other decoded transaction yields no handler call. -/
theorem runTransactions_filter :
    ∀ (t : Transaction) (events : List TxEvent),
      (runTx t events).1 = (txRecords t events).map
        (fun r => if r.IsOrderFill && (r.IsMarketOrderTradeClose || r.IsTakeProfitOrder)
                  then some r else none) := by
  intro t events
  induction events generalizing t with
  | nil => rfl
  | cons ev rest ih =>
      cases ev with
      | readError e => rfl
      | line dec =>
          cases dec with
          | error e => rfl
          | ok l =>
              cases hu : t.unmarshal l with
              | error e => simp [runTx, txRecords, hu]
              | ok t2 => simp [runTx, txRecords, hu, ih t2]

/-- C10: a transaction line whose `"time"` value is present but not a
valid RFC 3339 timestamp makes the decode of the whole line fail, so
`RunTransactions` terminates with the decode error before the filter or
handler can run; with `"time"` absent the decode always succeeds (the
remaining fields are plain strings merged as-is). -/
theorem transaction_time_decode_failure
    (t : Transaction) (l : TxLine) (s : String) (rest : List TxEvent)
    (ht : l.time = some s) (hs : rfc3339Parse s = none) :
    t.unmarshal l = Except.error ("parsing time " ++ s) ∧
    runTx t (.line (.ok l) :: rest)
      = ([], .errored ("json.Unmarshal:" ++ ("parsing time " ++ s))) ∧
    (∀ l2 : TxLine, l2.time = none → t.unmarshal l2 = Except.ok (t.mergePlain l2)) := by
  have h1 : t.unmarshal l = Except.error ("parsing time " ++ s) := by
    simp only [Transaction.unmarshal, ht, hs]
  refine ⟨h1, ?_, ?_⟩
  · simp [runTx, h1]
  · intro l2 h2
    simp only [Transaction.unmarshal, h2]

theorem transaction_time_decode_failure_witness :
    Transaction.unmarshal {} txLineBadTime = Except.error ("parsing time " ++ "notatime") ∧
    runTx {} [.line (.ok txLineBadTime)]
      = ([], .errored ("json.Unmarshal:" ++ ("parsing time " ++ "notatime"))) ∧
    (∀ l2 : TxLine, l2.time = none →
      Transaction.unmarshal {} l2 = Except.ok (Transaction.mergePlain {} l2)) :=
  transaction_time_decode_failure {} txLineBadTime "notatime" [] rfl (by decide)

/-!  The process-wide endpoint template. -/

theorem applyCtor_template (g : String) (c : Ctor) : (applyCtor g c).2 = c.template := by
  cases c with
  | price a t cur live => rfl
  | transaction a t live => rfl

theorem runCtors_last :
    ∀ (init : List Ctor) (g : String) (lastC : Ctor),
      (runCtors g (init ++ [lastC])).2 = lastC.template := by
  intro init
  induction init with
  | nil =>
      intro g lastC
      simp [runCtors, applyCtor_template]
  | cons c init ih =>
      intro g lastC
      simp only [List.cons_append, runCtors]
      exact ih _ lastC

/-- C5: after any sequence of constructor calls, the shared `baseUrl`
holds the template installed by the most recent construction, and the
`url()` of every client built during the sequence formats with that
last-installed template. -/
theorem url_last_template :
    ∀ (g0 : String) (init : List Ctor) (lastC : Ctor),
      (runCtors g0 (init ++ [lastC])).2 = lastC.template ∧
      ∀ c ∈ (runCtors g0 (init ++ [lastC])).1,
        c.url (runCtors g0 (init ++ [lastC])).2
          = goSprintf lastC.template [c.account, c.currencies] := by
  intro g0 init lastC
  refine ⟨runCtors_last init g0 lastC, ?_⟩
  intro c _
  rw [Client.url, runCtors_last]

theorem url_last_template_witness :
    Client.url ⟨"a", "t", "EUR_USD", "PRICE"⟩
        (runCtors "" ([Ctor.price "a" "t" "EUR_USD" true]
          ++ [Ctor.transaction "b" "t2" false])).2
      = goSprintf (Ctor.transaction "b" "t2" false).template ["a", "EUR_USD"] :=
  (url_last_template "" [.price "a" "t" "EUR_USD" true] (.transaction "b" "t2" false)).2
    ⟨"a", "t", "EUR_USD", "PRICE"⟩ (by decide)
